import Mathlib

/-!
Verification of the nanomechat preprocessing core against its specification.

The definitions below are a shallow embedding of
`src/preprocessing/process/core.py` (segmentation engine, continuation
oracle adapter, chunk-to-record converter) and
`src/preprocessing/evaluations/create_eval_datasets.py` (dataset splitter).

Modelling conventions:
* A Python `datetime` (naive local time, as produced by
  `datetime.fromisoformat` on the cleaned timestamps) is modelled as an
  integer count of seconds since an arbitrary local midnight; then
  `(a - b).total_seconds()` is the integer difference and `dt.hour` is
  `(t / 3600) % 24`.
* The external continuation oracle (an HTTP call in
  `ask_llm_about_continuation`) is modelled by passing the oracle as an
  explicit function argument, and its HTTP outcome as an explicit value.
* Python's `random.Random(seed).shuffle` is modelled as an explicit
  deterministic function from a seed and an index list to a shuffled index
  list; theorems that need it assume the shuffled list is a permutation of
  its input, which the Python library guarantees.
-/

namespace Nanomechat

/-- One cleaned chat message (fields `timestamp`, `sender`, `message` of the
JSON records consumed by `core.py`); the timestamp is modelled as seconds
of naive local time since a reference midnight. -/
structure Message where
  timestamp : ℤ
  sender : String
  message : String
deriving DecidableEq

instance : Inhabited Message := ⟨⟨0, "", ""⟩⟩

/-- CHUNKING CONFIG constant `AUTO_GROUP_MINUTES = 15` from `core.py`. -/
def AUTO_GROUP_MINUTES : ℚ := 15

/-- CHUNKING CONFIG constant `LLM_QUERY_MAX_MINUTES = 240` from `core.py`. -/
def LLM_QUERY_MAX_MINUTES : ℚ := 240

/-- CHUNKING CONFIG constant `SLEEP_START_HOUR = 0` from `core.py`. -/
def SLEEP_START_HOUR : ℤ := 0

/-- CHUNKING CONFIG constant `SLEEP_END_HOUR = 10` from `core.py`. -/
def SLEEP_END_HOUR : ℤ := 10

/-- PERSONA CONFIG constant `YOUR_NAME = "Festus"` from `core.py`. -/
def YOUR_NAME : String := "Festus"

/-- The `hour` attribute of a naive local datetime modelled as seconds
since a reference midnight. -/
def hourOf (t : ℤ) : ℤ := (t / 3600) % 24

/-- Embedding of `is_in_sleep_hours` (core.py line 55): checks whether the
datetime is during sleep hours, `SLEEP_START_HOUR <= dt.hour < SLEEP_END_HOUR`. -/
def is_in_sleep_hours (t : ℤ) : Bool :=
  SLEEP_START_HOUR ≤ hourOf t ∧ hourOf t < SLEEP_END_HOUR

/-- The gap `time_diff.total_seconds() / 60` between consecutive messages
(core.py lines 136-139), as an exact rational number of minutes
(`Rat.divInt` is the exact division of the integer second count by 60). -/
def gap_minutes (p c : Message) : ℚ := Rat.divInt (c.timestamp - p.timestamp) 60

/-- The per-pair continuation decision of `chunk_by_llm` (core.py lines
141-151): auto-continue below 15 minutes, consult the oracle in
[15, 240] minutes, and above 240 minutes consult the oracle only during
sleep hours, otherwise split.  The oracle stands for
`ask_llm_about_continuation(current_chunk, curr_msg)`. -/
def should_continue (oracle : List Message → Message → Bool)
    (current_chunk : List Message) (prev_msg curr_msg : Message) : Bool :=
  if gap_minutes prev_msg curr_msg < AUTO_GROUP_MINUTES then
    true
  else if gap_minutes prev_msg curr_msg ≤ LLM_QUERY_MAX_MINUTES then
    oracle current_chunk curr_msg
  else if is_in_sleep_hours curr_msg.timestamp then
    oracle current_chunk curr_msg
  else
    false

/-- The loop of `chunk_by_llm` (core.py lines 132-160): state is the list of
finalized chunks, the current chunk, and the previous message; each further
message either extends the current chunk or finalizes it and starts a new
one, and the last current chunk is appended at the end. -/
def chunk_go (oracle : List Message → Message → Bool)
    (chunks : List (List Message)) (current_chunk : List Message)
    (prev_msg : Message) : List Message → List (List Message)
  | [] => chunks ++ [current_chunk]
  | curr_msg :: rest =>
      if should_continue oracle current_chunk prev_msg curr_msg then
        chunk_go oracle chunks (current_chunk ++ [curr_msg]) curr_msg rest
      else
        chunk_go oracle (chunks ++ [current_chunk]) [curr_msg] curr_msg rest

/-- Embedding of `chunk_by_llm` (core.py lines 112-162): splits messages
into chunks using the time-gap policy and the continuation oracle. -/
def chunk_by_llm (oracle : List Message → Message → Bool) :
    List Message → List (List Message)
  | [] => []
  | [m] => [[m]]
  | m :: rest => chunk_go oracle [] [m] m rest

lemma chunk_go_flatten (oracle : List Message → Message → Bool) :
    ∀ (rest : List Message) (chunks : List (List Message))
      (current_chunk : List Message) (prev_msg : Message),
      (chunk_go oracle chunks current_chunk prev_msg rest).flatten =
        chunks.flatten ++ current_chunk ++ rest := by
  intro rest
  induction rest with
  | nil =>
      intro chunks current_chunk prev_msg
      simp [chunk_go]
  | cons c rest ih =>
      intro chunks current_chunk prev_msg
      by_cases h : should_continue oracle current_chunk prev_msg c
      · simp [chunk_go, h, ih]
      · simp [chunk_go, h, ih]

lemma chunk_go_ne_nil (oracle : List Message → Message → Bool) :
    ∀ (rest : List Message) (chunks : List (List Message))
      (current_chunk : List Message) (prev_msg : Message),
      (∀ ch ∈ chunks, ch ≠ []) → current_chunk ≠ [] →
      ∀ ch ∈ chunk_go oracle chunks current_chunk prev_msg rest, ch ≠ [] := by
  intro rest
  induction rest with
  | nil =>
      intro chunks current_chunk prev_msg hchunks hcur ch hch
      simp only [chunk_go, List.mem_append, List.mem_singleton] at hch
      rcases hch with h | h
      · exact hchunks ch h
      · exact h ▸ hcur
  | cons c rest ih =>
      intro chunks current_chunk prev_msg hchunks hcur ch hch
      by_cases h : should_continue oracle current_chunk prev_msg c
      · simp only [chunk_go, h, if_true] at hch
        refine ih _ _ _ hchunks ?_ ch hch
        simp
      · simp only [chunk_go, h, if_false] at hch
        refine ih _ _ _ ?_ ?_ ch hch
        · intro ch' hch'
          rcases List.mem_append.1 hch' with h' | h'
          · exact hchunks ch' h'
          · rcases List.mem_singleton.1 h' with rfl
            exact hcur
        · simp

lemma chunk_by_llm_flatten (oracle : List Message → Message → Bool)
    (messages : List Message) :
    (chunk_by_llm oracle messages).flatten = messages := by
  match messages with
  | [] => simp [chunk_by_llm]
  | [m] => simp [chunk_by_llm]
  | m :: m2 :: rest =>
      show (chunk_go oracle [] [m] m (m2 :: rest)).flatten = m :: m2 :: rest
      rw [chunk_go_flatten]
      simp

/-- C1: concatenating the chunks returned by the Segmentation Engine
(`chunk_by_llm`) reproduces the input message list exactly, for any
behaviour of the continuation oracle; every emitted chunk is non-empty; an
empty input yields no chunks; and a one-element input yields exactly one
one-element chunk whose value does not depend on the oracle at all (so no
oracle call can influence it). -/
theorem chunk_by_llm_partitions (oracle : List Message → Message → Bool)
    (messages : List Message) :
    (chunk_by_llm oracle messages).flatten = messages
    ∧ (∀ ch ∈ chunk_by_llm oracle messages, ch ≠ [])
    ∧ chunk_by_llm oracle [] = []
    ∧ (∀ m, chunk_by_llm oracle [m] = [[m]])
    ∧ (∀ m oracle2, chunk_by_llm oracle [m] = chunk_by_llm oracle2 [m]) := by
  refine ⟨chunk_by_llm_flatten oracle messages, ?_, rfl, fun m => rfl, fun m o2 => rfl⟩
  match messages with
  | [] => simp [chunk_by_llm]
  | [m] => simp [chunk_by_llm]
  | m :: m2 :: rest =>
      show ∀ ch ∈ chunk_go oracle [] [m] m (m2 :: rest), ch ≠ []
      exact chunk_go_ne_nil oracle _ _ _ _ (by simp) (by simp)

/-- C2: the Segmentation Engine decides continuation for a consecutive pair
by the three-tier gap policy of `chunk_by_llm`: strictly below 15 minutes it
continues without consulting the oracle (the decision is `true` for every
oracle); between 15 and 240 minutes inclusive the decision is exactly the
oracle's answer on the current chunk and the candidate; above 240 minutes
the decision is the oracle's answer when the candidate's hour lies in
[0, 10), and unconditionally `false` (split, no oracle influence) otherwise. -/
theorem should_continue_gap_policy (oracle : List Message → Message → Bool)
    (current_chunk : List Message) (p c : Message) :
    (gap_minutes p c < 15 → should_continue oracle current_chunk p c = true)
    ∧ (15 ≤ gap_minutes p c → gap_minutes p c ≤ 240 →
        should_continue oracle current_chunk p c = oracle current_chunk c)
    ∧ (240 < gap_minutes p c → 0 ≤ hourOf c.timestamp → hourOf c.timestamp < 10 →
        should_continue oracle current_chunk p c = oracle current_chunk c)
    ∧ (240 < gap_minutes p c →
        ¬ (0 ≤ hourOf c.timestamp ∧ hourOf c.timestamp < 10) →
        should_continue oracle current_chunk p c = false) := by
  refine ⟨?_, ?_, ?_, ?_⟩
  · intro h
    simp [should_continue, AUTO_GROUP_MINUTES, h]
  · intro h1 h2
    simp [should_continue, AUTO_GROUP_MINUTES, LLM_QUERY_MAX_MINUTES, not_lt.2 h1, h2]
  · intro h1 h2 h3
    have hgt : ¬ gap_minutes p c < 15 := not_lt.2 (le_trans (by norm_num) h1.le)
    have hle : ¬ gap_minutes p c ≤ 240 := not_le.2 h1
    simp [should_continue, AUTO_GROUP_MINUTES, LLM_QUERY_MAX_MINUTES,
      is_in_sleep_hours, SLEEP_START_HOUR, SLEEP_END_HOUR, hgt, hle, h2, h3]
  · intro h1 h2
    have hgt : ¬ gap_minutes p c < 15 := not_lt.2 (le_trans (by norm_num) h1.le)
    have hle : ¬ gap_minutes p c ≤ 240 := not_le.2 h1
    have hsleep : is_in_sleep_hours c.timestamp = false := by
      simp only [is_in_sleep_hours, SLEEP_START_HOUR, SLEEP_END_HOUR,
        decide_eq_false_iff_not]
      exact h2
    simp [should_continue, AUTO_GROUP_MINUTES, LLM_QUERY_MAX_MINUTES, hgt, hle, hsleep]

/-- Witness for the gap-policy theorem at a concrete input: a 5-minute gap
auto-continues even for the constantly-splitting oracle. -/
theorem should_continue_gap_policy_witness :
    gap_minutes ⟨36000, "Amaka", "hi"⟩ ⟨36300, "Festus", "yo"⟩ < 15
    ∧ should_continue (fun _ _ => false) [⟨36000, "Amaka", "hi"⟩]
        ⟨36000, "Amaka", "hi"⟩ ⟨36300, "Festus", "yo"⟩ = true :=
  ⟨by decide,
   (should_continue_gap_policy (fun _ _ => false) [⟨36000, "Amaka", "hi"⟩]
      ⟨36000, "Amaka", "hi"⟩ ⟨36300, "Festus", "yo"⟩).1 (by decide)⟩

/-- Previous message at 10:00:00 for the exact-15-minute boundary. -/
def msg1000 : Message := ⟨36000, "Amaka", "m0"⟩

/-- Candidate message at 10:15:00, exactly 15 minutes after `msg1000`. -/
def msg1015 : Message := ⟨36900, "Festus", "m1"⟩

/-- Counterexample to C3 as stated: at a gap of exactly 15 minutes the code
does NOT auto-continue; the decision is handed to the oracle, so with an
oracle answering "no" the pair splits (`should_continue` is `false`),
refuting the claim that a 15-minute gap continues without an oracle call. -/
theorem exact_15_minute_gap_consults_oracle :
    gap_minutes msg1000 msg1015 = 15
    ∧ should_continue (fun _ _ => false) [msg1000] msg1000 msg1015 = false
    ∧ should_continue (fun _ _ => true) [msg1000] msg1000 msg1015 = true := by
  refine ⟨by decide, by decide, by decide⟩

/-- Previous message at 13:44:59. -/
def msg134459 : Message := ⟨49499, "Amaka", "m0"⟩

/-- Candidate at 14:00:00, 15 minutes and 1 second after `msg134459`. -/
def msg140001gap : Message := ⟨50400, "Festus", "m1"⟩

/-- Previous message at 09:00:00. -/
def msg0900 : Message := ⟨32400, "Amaka", "m0"⟩

/-- Candidate at 14:00:00, 5 hours after `msg0900` (daytime hour 14). -/
def msg1400 : Message := ⟨50400, "Festus", "m1"⟩

/-- Previous message at 22:00:00 (day 0). -/
def msg2200 : Message := ⟨79200, "Amaka", "m0"⟩

/-- Candidate at 03:00:00 the next day, 5 hours after `msg2200` (sleep
hour 3). -/
def msg0300next : Message := ⟨97200, "Festus", "m1"⟩

/-- C3 amended: at a gap of exactly 15 minutes the engine consults the
oracle (the decision equals the oracle's answer) rather than
auto-continuing; a gap of 15 minutes plus 1 second with the candidate at
14:00 likewise consults the oracle; a gap of 5 hours with the candidate at
14:00 splits with no oracle influence; and a gap of 5 hours with the
candidate at 03:00 consults the oracle. -/
theorem gap_boundary_behaviour :
    (∀ oracle, should_continue oracle [msg1000] msg1000 msg1015 =
        oracle [msg1000] msg1015)
    ∧ (∀ oracle, should_continue oracle [msg134459] msg134459 msg140001gap =
        oracle [msg134459] msg140001gap)
    ∧ (∀ oracle, should_continue oracle [msg0900] msg0900 msg1400 = false)
    ∧ (∀ oracle, should_continue oracle [msg2200] msg2200 msg0300next =
        oracle [msg2200] msg0300next) := by
  refine ⟨fun oracle => ?_, fun oracle => ?_, fun oracle => ?_, fun oracle => ?_⟩
  · show should_continue oracle [msg1000] msg1000 msg1015 = oracle [msg1000] msg1015
    rw [should_continue, if_neg (by decide), if_pos (by decide)]
  · rw [should_continue, if_neg (by decide), if_pos (by decide)]
  · rw [should_continue, if_neg (by decide), if_neg (by decide), if_neg (by decide)]
  · rw [should_continue, if_neg (by decide), if_neg (by decide), if_pos (by decide)]

/-- Python `str.strip()`: drop whitespace from both ends. -/
def pyStrip (s : String) : String :=
  ⟨((s.data.dropWhile Char.isWhitespace).reverse.dropWhile Char.isWhitespace).reverse⟩

/-- Python `str.upper()` (on the ASCII alphabet, which is all the decision
rule inspects): upper-case every character. -/
def pyUpper (s : String) : String := ⟨s.data.map Char.toUpper⟩

/-- Whether the first character list is a prefix of the second. -/
def prefixChars : List Char → List Char → Bool
  | [], _ => true
  | _ :: _, [] => false
  | a :: as, b :: bs => a == b && prefixChars as bs

/-- Python's substring test `needle in hay`: the needle occurs contiguously
somewhere in the hay. -/
def containsSub (needle : List Char) : List Char → Bool
  | [] => prefixChars needle []
  | h :: t => prefixChars needle (h :: t) || containsSub needle t

/-- The outcome of the single `requests.post` call in
`ask_llm_about_continuation` (core.py lines 84-105): either some exception
was raised anywhere inside the `try` block (transport error, timeout,
JSON decode failure), or an HTTP response arrived with a status code and
an optional `message.content` string (`none` models a missing or
non-string answer field). -/
inductive HttpOutcome where
  | exn : HttpOutcome
  | response (status : ℕ) (content : Option String) : HttpOutcome
deriving DecidableEq

/-- Embedding of the decision logic of `ask_llm_about_continuation`
(core.py lines 60-109) as a function of the HTTP outcome: on an exception
return `False`; on a non-200 status return `False`; on a 200 response
strip and upper-case the answer (`result.get("message", {}).get("content", "")`,
so a missing field reads as the empty string) and return whether it
contains the substring `"YES"`. -/
def ask_llm_about_continuation (outcome : HttpOutcome) : Bool :=
  match outcome with
  | .exn => false
  | .response status content =>
      if status = 200 then
        containsSub "YES".data (pyUpper (pyStrip (content.getD ""))).data
      else
        false

/-- C4: the Continuation Oracle adapter never propagates a failure: an
exception anywhere in the call yields `false` (split), a non-200 status
yields `false`, a 200 response answers `true` exactly when the
upper-cased stripped answer contains the substring "YES" (a missing
answer field yields `false`); and segmentation driven by any
outcome-producing oracle still runs to completion and partitions its
input. -/
theorem ask_llm_failure_policy (outcome : HttpOutcome) :
    (outcome = .exn → ask_llm_about_continuation outcome = false)
    ∧ (∀ s c, outcome = .response s c → s ≠ 200 →
        ask_llm_about_continuation outcome = false)
    ∧ (∀ c, outcome = .response 200 c →
        (ask_llm_about_continuation outcome = true ↔
          containsSub "YES".data (pyUpper (pyStrip (c.getD ""))).data = true))
    ∧ (∀ s, outcome = .response s none → ask_llm_about_continuation outcome = false)
    ∧ (∀ (f : List Message → Message → HttpOutcome) (messages : List Message),
        (chunk_by_llm (fun cur m => ask_llm_about_continuation (f cur m))
            messages).flatten = messages) := by
  refine ⟨?_, ?_, ?_, ?_, ?_⟩
  · rintro rfl; rfl
  · rintro s c rfl hs
    simp [ask_llm_about_continuation, hs]
  · rintro c rfl
    simp [ask_llm_about_continuation]
  · rintro s rfl
    rcases eq_or_ne s 200 with rfl | hs
    · decide
    · simp [ask_llm_about_continuation, hs]
  · intro f messages
    exact chunk_by_llm_flatten _ messages

/-- Witness for the oracle failure policy: an exception outcome yields a
"no" answer. -/
theorem ask_llm_failure_policy_witness :
    ask_llm_about_continuation .exn = false :=
  (ask_llm_failure_policy .exn).1 rfl

/-- The sender tag attached to a message in the Continuation Oracle's
prompt (core.py lines 69 and 73): "User" exactly when the message's sender
equals the sender of the FIRST message of the current chunk
(`conversation_so_far[0]["sender"]`), "Assistant" otherwise.  The chunk is
never empty at the call sites, so indexing is modelled with a default. -/
def oracle_sender_label (conversation_so_far : List Message) (msg : Message) : String :=
  if msg.sender = (conversation_so_far.headD default).sender then "User" else "Assistant"

/-- The role the Chunk-to-Record Converter derives for a message
(core.py line 201): "assistant" exactly when the sender is `YOUR_NAME`. -/
def role_of (m : Message) : String :=
  if m.sender = YOUR_NAME then "assistant" else "user"

/-- A message sent by the configured self identity. -/
def festusMsg : Message := ⟨0, "Festus", "hi"⟩

/-- Counterexample to C5 as stated: in a chunk whose first message was sent
by the self identity, the oracle prompt labels a self-sent message "User"
(it compares against the chunk's first sender, not against `YOUR_NAME`),
while the Converter derives role "assistant" for the same message — so the
two role derivations disagree. -/
theorem oracle_label_diverges_from_converter :
    ¬ (oracle_sender_label [festusMsg] festusMsg = "Assistant" ↔
        role_of festusMsg = "assistant") := by
  decide

/-- C5 amended: the oracle prompt labels a message "User" exactly when its
sender equals the chunk's first message's sender; this agrees with the
Converter's derivation (assistant iff sender = `YOUR_NAME`) whenever the
chunk's first message is not self-sent and the message's sender is one of
the two parties of the chat (the chunk's first sender or `YOUR_NAME`). -/
theorem oracle_label_matches_converter (chunk : List Message) (m first : Message)
    (hhead : chunk.headD default = first)
    (hfirst : first.sender ≠ YOUR_NAME)
    (hparty : m.sender = YOUR_NAME ∨ m.sender = first.sender) :
    (oracle_sender_label chunk m = "Assistant" ↔ role_of m = "assistant")
    ∧ (oracle_sender_label chunk m = "User" ↔ role_of m = "user") := by
  subst hhead
  rcases hparty with h | h
  · have hne : m.sender ≠ (chunk.headD default).sender := fun hc => hfirst (hc ▸ h)
    simp only [oracle_sender_label, role_of, if_neg hne, if_pos h]
    exact ⟨by decide, by decide⟩
  · have hm : m.sender ≠ YOUR_NAME := by rw [h]; exact hfirst
    simp only [oracle_sender_label, role_of, if_pos h, if_neg hm]
    exact ⟨by decide, by decide⟩

/-- Witness for the amended C5 statement: with a chunk started by the other
party, a self-sent message is labelled "Assistant" by the oracle prompt iff
the Converter derives "assistant" for it. -/
theorem oracle_label_matches_converter_witness :
    (oracle_sender_label [⟨0, "Amaka", "yo"⟩] festusMsg = "Assistant" ↔
        role_of festusMsg = "assistant")
    ∧ (oracle_sender_label [⟨0, "Amaka", "yo"⟩] festusMsg = "User" ↔
        role_of festusMsg = "user") :=
  oracle_label_matches_converter [⟨0, "Amaka", "yo"⟩] festusMsg ⟨0, "Amaka", "yo"⟩
    (by decide) (by decide) (Or.inl (by decide))

/-- One merged ChatML turn, `{"role": ..., "content": ...}` (core.py
lines 207-210). -/
structure Turn where
  role : String
  content : String
deriving DecidableEq

instance : Inhabited Turn := ⟨⟨"", ""⟩⟩

/-- The record returned by `chunk_to_chatml` (core.py lines 227-232);
timestamps are modelled as in `Message`. -/
structure TrainingRecord where
  messages : List Turn
  persona : String
  timestamp_start : ℤ
  timestamp_end : ℤ
deriving DecidableEq

/-- One iteration of the merge loop of `chunk_to_chatml` (core.py lines
200-212): state is `(current_role, current_content, merged_messages)`;
a message of the current role appends its text, a role change (or the
initial `None` role) flushes the pending turn and starts a new one. -/
def mergeStep (st : Option String × List String × List Turn) (m : Message) :
    Option String × List String × List Turn :=
  match st with
  | (curRole, curContent, merged) =>
      if curRole = some (role_of m) then
        (curRole, curContent ++ [m.message], merged)
      else
        match curRole with
        | none => (some (role_of m), [m.message], merged)
        | some r =>
            (some (role_of m), [m.message],
              merged ++ [⟨r, String.intercalate "\n" curContent⟩])

/-- The final flush after the merge loop (core.py lines 214-219). -/
def mergeFinish (st : Option String × List String × List Turn) : List Turn :=
  match st with
  | (none, _, merged) => merged
  | (some r, curContent, merged) =>
      merged ++ [⟨r, String.intercalate "\n" curContent⟩]

/-- The complete merge phase of `chunk_to_chatml` (core.py lines 195-219):
fold the merge loop over the chunk and flush the final pending turn. -/
def merge_messages (chunk : List Message) : List Turn :=
  mergeFinish (chunk.foldl mergeStep (none, [], []))

/-- Declarative description of the merge phase used by the specification:
each maximal run of consecutive messages with the same derived role becomes
one turn whose content joins the original texts in order with a newline. -/
def specMerge : List Message → List Turn
  | [] => []
  | m :: rest =>
      ⟨role_of m,
        String.intercalate "\n"
          (m.message ::
            (rest.takeWhile (fun x => role_of x == role_of m)).map Message.message)⟩
        :: specMerge (rest.dropWhile (fun x => role_of x == role_of m))
termination_by l => l.length
decreasing_by
  exact Nat.lt_succ_of_le (List.dropWhile_sublist _).length_le

/-- A partially accumulated run (role `r`, texts `acc` so far) followed by
the remaining messages, merged declaratively. -/
def mergeRuns (r : String) (acc : List String) (chunk : List Message) : List Turn :=
  ⟨r, String.intercalate "\n"
      (acc ++ (chunk.takeWhile (fun x => role_of x == r)).map Message.message)⟩
    :: specMerge (chunk.dropWhile (fun x => role_of x == r))

lemma specMerge_cons (m : Message) (rest : List Message) :
    specMerge (m :: rest) = mergeRuns (role_of m) [m.message] rest := by
  rw [specMerge, mergeRuns]
  simp

lemma foldl_mergeStep_run :
    ∀ (chunk : List Message) (r : String) (acc : List String) (done : List Turn),
      mergeFinish (chunk.foldl mergeStep (some r, acc, done)) =
        done ++ mergeRuns r acc chunk := by
  intro chunk
  induction chunk with
  | nil =>
      intro r acc done
      simp [mergeFinish, mergeRuns, specMerge]
  | cons m rest ih =>
      intro r acc done
      by_cases hr : role_of m = r
      · have hcond : (some r : Option String) = some (role_of m) := by rw [hr]
        rw [List.foldl_cons, mergeStep, if_pos hcond, ih]
        rw [mergeRuns, mergeRuns]
        have htw : (m :: rest).takeWhile (fun x => role_of x == r) =
            m :: rest.takeWhile (fun x => role_of x == r) := by
          rw [List.takeWhile_cons_of_pos (by simp [hr])]
        have hdw : (m :: rest).dropWhile (fun x => role_of x == r) =
            rest.dropWhile (fun x => role_of x == r) := by
          rw [List.dropWhile_cons_of_pos (by simp [hr])]
        rw [htw, hdw]
        simp
      · have hcond : ¬ (some r : Option String) = some (role_of m) := by
          simp only [Option.some.injEq]
          exact fun hc => hr hc.symm
        rw [List.foldl_cons, mergeStep, if_neg hcond]
        show mergeFinish (List.foldl mergeStep
            (some (role_of m), [m.message],
              done ++ [⟨r, String.intercalate "\n" acc⟩]) rest) = _
        rw [ih]
        have htw : (m :: rest).takeWhile (fun x => role_of x == r) = [] := by
          rw [List.takeWhile_cons_of_neg (by simp [hr])]
        have hdw : (m :: rest).dropWhile (fun x => role_of x == r) = m :: rest := by
          rw [List.dropWhile_cons_of_neg (by simp [hr])]
        conv_rhs => rw [mergeRuns]
        rw [htw, hdw, specMerge_cons]
        simp

lemma merge_messages_eq_specMerge (chunk : List Message) :
    merge_messages chunk = specMerge chunk := by
  match chunk with
  | [] => simp [merge_messages, mergeFinish, specMerge]
  | m :: rest =>
      rw [merge_messages, List.foldl_cons]
      have hstep : mergeStep (none, [], []) m = (some (role_of m), [m.message], []) := by
        rw [mergeStep, if_neg (by simp)]
      rw [hstep, foldl_mergeStep_run, specMerge_cons]
      simp

/-- Embedding of `chunk_to_chatml` (core.py lines 165-232): reject chunks
shorter than 2; reject chunks with no message from another sender (the
`for ... else` trim loop); otherwise drop the leading run of self-sent
messages (`chunk[start_idx:]` where `start_idx` indexes the first non-self
message), merge consecutive same-role messages, reject if no assistant
turn remains, else emit the record with persona and the trimmed chunk's
first and last timestamps. -/
def chunk_to_chatml (chunk : List Message) (persona : String) :
    Option TrainingRecord :=
  if chunk.length < 2 then none
  else if chunk.all (fun m => m.sender == YOUR_NAME) then none
  else if (merge_messages (chunk.dropWhile (fun m => m.sender == YOUR_NAME))).any
      (fun t => t.role == "assistant") then
    some ⟨merge_messages (chunk.dropWhile (fun m => m.sender == YOUR_NAME)), persona,
      ((chunk.dropWhile (fun m => m.sender == YOUR_NAME)).headD default).timestamp,
      ((chunk.dropWhile (fun m => m.sender == YOUR_NAME)).getLastD default).timestamp⟩
  else none

lemma dropWhile_headD_not (p : Message → Bool) (l : List Message)
    (h : l.dropWhile p ≠ []) : p ((l.dropWhile p).headD default) = false := by
  induction l with
  | nil => simp at h
  | cons a t ih =>
      by_cases ha : p a
      · rw [List.dropWhile_cons_of_pos ha] at h ⊢
        exact ih h
      · rw [List.dropWhile_cons_of_neg ha]
        simpa using ha

/-- C6: `chunk_to_chatml` rejects exactly the chunks that have fewer than
two messages, or no message from a sender other than the self identity, or
whose merged turn sequence has no assistant turn; and every accepted chunk
yields the record whose turns are the maximal same-role runs of the chunk
after dropping the leading self-sent run (texts joined with a newline),
tagged with the persona and the trimmed chunk's first and last timestamps,
and that record opens with a user turn and contains an assistant turn. -/
theorem chunk_to_chatml_spec (chunk : List Message) (persona : String) :
    (chunk_to_chatml chunk persona = none ↔
        chunk.length < 2
        ∨ (∀ m ∈ chunk, m.sender = YOUR_NAME)
        ∨ (∀ t ∈ specMerge (chunk.dropWhile (fun m => m.sender == YOUR_NAME)),
            t.role ≠ "assistant"))
    ∧ (∀ r, chunk_to_chatml chunk persona = some r →
        r.messages = specMerge (chunk.dropWhile (fun m => m.sender == YOUR_NAME))
        ∧ r.persona = persona
        ∧ r.timestamp_start =
            (((chunk.dropWhile (fun m => m.sender == YOUR_NAME)).headD default)).timestamp
        ∧ r.timestamp_end =
            (((chunk.dropWhile (fun m => m.sender == YOUR_NAME)).getLastD default)).timestamp
        ∧ r.messages ≠ []
        ∧ (r.messages.headD default).role = "user"
        ∧ ∃ t ∈ r.messages, t.role = "assistant") := by
  by_cases hlen : chunk.length < 2
  · constructor
    · simp [chunk_to_chatml, hlen]
    · intro r hr
      rw [chunk_to_chatml, if_pos hlen] at hr
      exact absurd hr (by simp)
  · by_cases hall : chunk.all (fun m => m.sender == YOUR_NAME)
    · constructor
      · rw [chunk_to_chatml, if_neg hlen, if_pos hall]
        simp only [true_iff]
        refine Or.inr (Or.inl ?_)
        intro m hm
        simpa using List.all_eq_true.1 hall m hm
      · intro r hr
        rw [chunk_to_chatml, if_neg hlen, if_pos hall] at hr
        exact absurd hr (by simp)
    · have hex : ∃ m ∈ chunk, ¬ m.sender = YOUR_NAME := by
        by_contra hc
        push_neg at hc
        exact hall (List.all_eq_true.2 fun m hm => by simpa using hc m hm)
      have hne2 : chunk.dropWhile (fun m => m.sender == YOUR_NAME) ≠ [] := by
        intro hnil
        rcases hex with ⟨m, hm, hms⟩
        have := List.dropWhile_eq_nil_iff.1 hnil m hm
        simp at this
        exact hms this
      obtain ⟨m, rest, hc2⟩ := List.exists_cons_of_ne_nil hne2
      have hmne : m.sender ≠ YOUR_NAME := by
        have hh := dropWhile_headD_not (fun m => m.sender == YOUR_NAME) chunk hne2
        rw [hc2] at hh
        simpa using hh
      have hrole : role_of m = "user" := by rw [role_of, if_neg hmne]
      have hmergeEq :
          merge_messages (chunk.dropWhile (fun m => m.sender == YOUR_NAME)) =
            specMerge (chunk.dropWhile (fun m => m.sender == YOUR_NAME)) :=
        merge_messages_eq_specMerge _
      by_cases hassist :
          (merge_messages (chunk.dropWhile (fun m => m.sender == YOUR_NAME))).any
            (fun t => t.role == "assistant")
      · constructor
        · rw [chunk_to_chatml, if_neg hlen, if_neg hall, if_pos hassist]
          constructor
          · intro h
            exact absurd h (by simp)
          · intro h
            exfalso
            rcases h with h | h | h
            · exact hlen h
            · rcases hex with ⟨mm, hmm, hms⟩
              exact hms (h mm hmm)
            · rcases List.any_eq_true.1 hassist with ⟨t, ht, htr⟩
              rw [hmergeEq] at ht
              exact h t ht (by simpa using htr)
        · intro r hr
          rw [chunk_to_chatml, if_neg hlen, if_neg hall, if_pos hassist] at hr
          have hrval := Option.some.inj hr
          subst hrval
          refine ⟨hmergeEq, rfl, rfl, rfl, ?_, ?_, ?_⟩
          · rw [hmergeEq, hc2, specMerge_cons, mergeRuns]
            simp
          · rw [hmergeEq, hc2, specMerge_cons, mergeRuns]
            simpa using hrole
          · rcases List.any_eq_true.1 hassist with ⟨t, ht, htr⟩
            exact ⟨t, ht, by simpa using htr⟩
      · constructor
        · rw [chunk_to_chatml, if_neg hlen, if_neg hall, if_neg hassist]
          constructor
          · intro _
            refine Or.inr (Or.inr ?_)
            intro t ht htr
            have hmem : t ∈ merge_messages
                (chunk.dropWhile (fun m => m.sender == YOUR_NAME)) := by
              rw [hmergeEq]
              exact ht
            exact hassist (List.any_eq_true.2 ⟨t, hmem, by simp [htr]⟩)
          · intro _
            rfl
        · intro r hr
          rw [chunk_to_chatml, if_neg hlen, if_neg hall, if_neg hassist] at hr
          exact absurd hr (by simp)

/-- Witness for the converter characterization at a concrete accepted
chunk: a user message followed by a self-sent reply converts to a two-turn
record opening with the user turn. -/
theorem chunk_to_chatml_spec_witness :
    (⟨[⟨"user", "q"⟩, ⟨"assistant", "a"⟩], "p", 0, 60⟩ : TrainingRecord).messages =
        specMerge (([⟨0, "Amaka", "q"⟩, ⟨60, "Festus", "a"⟩] :
            List Message).dropWhile (fun m => m.sender == YOUR_NAME))
    ∧ (⟨[⟨"user", "q"⟩, ⟨"assistant", "a"⟩], "p", 0, 60⟩ :
        TrainingRecord).persona = "p"
    ∧ (⟨[⟨"user", "q"⟩, ⟨"assistant", "a"⟩], "p", 0, 60⟩ :
        TrainingRecord).timestamp_start =
        ((([⟨0, "Amaka", "q"⟩, ⟨60, "Festus", "a"⟩] :
            List Message).dropWhile (fun m => m.sender == YOUR_NAME)).headD
          default).timestamp
    ∧ (⟨[⟨"user", "q"⟩, ⟨"assistant", "a"⟩], "p", 0, 60⟩ :
        TrainingRecord).timestamp_end =
        ((([⟨0, "Amaka", "q"⟩, ⟨60, "Festus", "a"⟩] :
            List Message).dropWhile (fun m => m.sender == YOUR_NAME)).getLastD
          default).timestamp
    ∧ (⟨[⟨"user", "q"⟩, ⟨"assistant", "a"⟩], "p", 0, 60⟩ :
        TrainingRecord).messages ≠ []
    ∧ ((⟨[⟨"user", "q"⟩, ⟨"assistant", "a"⟩], "p", 0, 60⟩ :
        TrainingRecord).messages.headD default).role = "user"
    ∧ ∃ t ∈ (⟨[⟨"user", "q"⟩, ⟨"assistant", "a"⟩], "p", 0, 60⟩ :
        TrainingRecord).messages, t.role = "assistant" :=
  (chunk_to_chatml_spec [⟨0, "Amaka", "q"⟩, ⟨60, "Festus", "a"⟩] "p").2
    ⟨[⟨"user", "q"⟩, ⟨"assistant", "a"⟩], "p", 0, 60⟩ (by decide)

/-- Floor of a rational number computed on its numerator and denominator
(the denominator is positive, so Euclidean division is floor division). -/
def ratFloor (q : ℚ) : ℤ := Int.ediv q.num (q.den : ℤ)

/-- Python's built-in `round` to an integer (banker's rounding, used by
`int(round(len(rows) * eval_ratio))` in create_eval_datasets.py line 56):
round to the nearest integer, ties to the even neighbour.  The comparison
of the fractional part with 1/2 is done on integers:
`frac > 1/2  ↔  2*(num - floor*den) > den`. -/
def pyRound (q : ℚ) : ℤ :=
  if (q.den : ℤ) < 2 * (q.num - ratFloor q * (q.den : ℤ)) then ratFloor q + 1
  else if 2 * (q.num - ratFloor q * (q.den : ℤ)) < (q.den : ℤ) then ratFloor q
  else if ratFloor q % 2 = 0 then ratFloor q
  else ratFloor q + 1

/-- The `EvalSplitConfig` dataclass of create_eval_datasets.py (lines
13-21), restricted to the fields the split logic reads; the directory
fields are pure I/O destinations and are omitted.  `eval_ratioQ` models the
float field `eval_ratio` as an exact rational. -/
structure EvalSplitConfig where
  seed : ℕ
  eval_ratioQ : ℚ
  min_eval_per_persona : ℕ
  max_eval_per_persona : Option ℕ
deriving DecidableEq

/-- The clamped eval-set size of `split_eval` (create_eval_datasets.py
lines 56-60): `desired = int(round(len(rows) * eval_ratio))`, then raised
to at least `min_eval_per_persona`, lowered to at most `len(rows)`, and,
only when configured, lowered to at most `max_eval_per_persona`. -/
def desiredEval (n : ℕ) (cfg : EvalSplitConfig) : ℤ :=
  match cfg.max_eval_per_persona with
  | some mx =>
      min (min (max (pyRound ((n : ℚ) * cfg.eval_ratioQ))
        (cfg.min_eval_per_persona : ℤ)) (n : ℤ)) (mx : ℤ)
  | none =>
      min (max (pyRound ((n : ℚ) * cfg.eval_ratioQ))
        (cfg.min_eval_per_persona : ℤ)) (n : ℤ)

/-- Embedding of `split_eval` (create_eval_datasets.py lines 49-65).  The
`shuffle` argument models `rng.shuffle(indices)`: it receives
`list(range(len(rows)))` and returns the shuffled index list.  The first
`desired` shuffled indices form `eval_idx`; the rows are then walked in
original order, each row going to the eval list when its index is in
`eval_idx` and to the remaining list otherwise. -/
def split_eval (shuffle : List ℕ → List ℕ) (rows : List α)
    (cfg : EvalSplitConfig) : List α × List α :=
  if rows.isEmpty then ([], [])
  else
    ((List.range rows.length).filterMap
        (fun i => if ((shuffle (List.range rows.length)).take
            (desiredEval rows.length cfg).toNat).contains i
          then rows[i]? else none),
     (List.range rows.length).filterMap
        (fun i => if ((shuffle (List.range rows.length)).take
            (desiredEval rows.length cfg).toNat).contains i
          then none else rows[i]?))

/-- The rows of `rows` at the positions of `idxs`, in the order of `idxs`
(out-of-range positions contribute nothing). -/
def rowsAt (rows : List α) (idxs : List ℕ) : List α :=
  idxs.filterMap (fun i => rows[i]?)

lemma filterMap_ite_pos (l : List ℕ) (p : ℕ → Bool) (f : ℕ → Option α) :
    l.filterMap (fun i => if p i then f i else none) =
      (l.filter p).filterMap f := by
  induction l with
  | nil => rfl
  | cons a t ih =>
      by_cases ha : p a
      · rw [List.filter_cons_of_pos ha, List.filterMap_cons, List.filterMap_cons, ha]
        cases f a <;> simp [ih]
      · rw [List.filter_cons_of_neg (by simpa using ha), List.filterMap_cons]
        simp only [ha, if_false]
        exact ih

lemma filterMap_ite_neg (l : List ℕ) (p : ℕ → Bool) (f : ℕ → Option α) :
    l.filterMap (fun i => if p i then none else f i) =
      (l.filter (fun i => ! p i)).filterMap f := by
  induction l with
  | nil => rfl
  | cons a t ih =>
      by_cases ha : p a
      · rw [List.filter_cons_of_neg (by simpa using ha), List.filterMap_cons]
        simp only [ha, if_true]
        exact ih
      · rw [List.filter_cons_of_pos (by simpa using ha), List.filterMap_cons,
          List.filterMap_cons]
        simp only [ha, if_false]
        cases f a <;> simp [ih]

lemma filter_contains_range (S : List ℕ) (n : ℕ)
    (hlt : ∀ i ∈ S, i < n) :
    (List.range n).filter (fun i => S.contains i) =
      S.toFinset.sort (· ≤ ·) := by
  refine List.eq_of_perm_of_sorted ?_ ?_ (Finset.sort_sorted _ _)
  · rw [List.perm_ext_iff_of_nodup
      ((List.nodup_range n).filter _) (Finset.sort_nodup _ _)]
    intro a
    rw [List.mem_filter, List.mem_range, Finset.mem_sort, List.mem_toFinset]
    constructor
    · rintro ⟨_, hc⟩
      exact List.elem_iff.1 hc
    · intro ha
      exact ⟨hlt a ha, List.elem_iff.2 ha⟩
  · exact List.Sorted.filter _ ((List.sorted_lt_range n).imp fun h => le_of_lt h)

lemma filter_not_contains_range (S : List ℕ) (n : ℕ) :
    (List.range n).filter (fun i => ! S.contains i) =
      (Finset.range n \ S.toFinset).sort (· ≤ ·) := by
  refine List.eq_of_perm_of_sorted ?_ ?_ (Finset.sort_sorted _ _)
  · rw [List.perm_ext_iff_of_nodup
      ((List.nodup_range n).filter _) (Finset.sort_nodup _ _)]
    intro a
    rw [List.mem_filter, List.mem_range, Finset.mem_sort, Finset.mem_sdiff,
      Finset.mem_range, List.mem_toFinset]
    constructor
    · rintro ⟨h1, hc⟩
      refine ⟨h1, fun ha => ?_⟩
      rw [Bool.not_eq_true', ← Bool.not_eq_true] at hc
      exact hc (List.elem_iff.2 ha)
    · rintro ⟨h1, ha⟩
      refine ⟨h1, ?_⟩
      simp only [Bool.not_eq_true']
      rw [← Bool.not_eq_true]
      intro hc
      exact ha (List.elem_iff.1 hc)
  · exact List.Sorted.filter _ ((List.sorted_lt_range n).imp fun h => le_of_lt h)

lemma rowsAt_length (rows : List α) (l : List ℕ)
    (hlt : ∀ i ∈ l, i < rows.length) : (rowsAt rows l).length = l.length := by
  induction l with
  | nil => rfl
  | cons a t ih =>
      rw [rowsAt, List.filterMap_cons,
        List.getElem?_eq_getElem (hlt a (List.mem_cons_self a t))]
      simpa [rowsAt] using ih fun i hi => hlt i (List.mem_cons_of_mem a hi)

lemma rowsAt_range (rows : List α) :
    rowsAt rows (List.range rows.length) = rows := by
  induction rows with
  | nil => rfl
  | cons a t ih =>
      rw [rowsAt, List.length_cons, List.range_succ_eq_map, List.filterMap_cons]
      simp only [List.getElem?_cons_zero, List.filterMap_map]
      have : (fun i => (a :: t)[i + 1]?) = fun i : ℕ => t[i]? := by
        funext i
        exact List.getElem?_cons_succ
      rw [show ((fun i : ℕ => (a :: t)[i]?) ∘ Nat.succ) = fun i : ℕ => t[i]? from
        funext fun i => List.getElem?_cons_succ]
      exact congrArg (a :: ·) (by simpa [rowsAt] using ih)

lemma pyRound_intCast (z : ℤ) : pyRound ((z : ℚ)) = z := by
  have h1 : ratFloor ((z : ℚ)) = z := by
    rw [ratFloor, Rat.num_intCast, Rat.den_intCast]
    exact Int.ediv_one z
  rw [pyRound, h1, Rat.num_intCast, Rat.den_intCast]
  norm_num

lemma sort_toFinset_range (n : ℕ) :
    ((List.range n).toFinset.sort (· ≤ ·)) = List.range n := by
  refine List.eq_of_perm_of_sorted ?_ (Finset.sort_sorted _ _)
    ((List.sorted_lt_range n).imp fun h => le_of_lt h)
  rw [List.perm_ext_iff_of_nodup (Finset.sort_nodup _ _) (List.nodup_range n)]
  intro a
  rw [Finset.mem_sort, List.mem_toFinset]

lemma split_eval_components (shuffle : List ℕ → List ℕ) (rows : List α)
    (cfg : EvalSplitConfig)
    (hperm : (shuffle (List.range rows.length)).Perm (List.range rows.length)) :
    (split_eval shuffle rows cfg).1 =
      rowsAt rows ((((shuffle (List.range rows.length)).take
          (desiredEval rows.length cfg).toNat).toFinset).sort (· ≤ ·))
    ∧ (split_eval shuffle rows cfg).2 =
      rowsAt rows ((Finset.range rows.length \
          ((shuffle (List.range rows.length)).take
            (desiredEval rows.length cfg).toNat).toFinset).sort (· ≤ ·)) := by
  by_cases hempty : rows.isEmpty
  · have hnil : rows = [] := List.isEmpty_iff.1 hempty
    subst hnil
    have hL : shuffle (List.range (List.length ([] : List α))) = [] := by
      simpa using hperm.eq_nil
    constructor <;> simp [split_eval, hL, rowsAt]
  · have hlt : ∀ i ∈ (shuffle (List.range rows.length)).take
        (desiredEval rows.length cfg).toNat, i < rows.length :=
      fun i hi => List.mem_range.1 (hperm.mem_iff.1 ((List.take_sublist _ _).subset hi))
    constructor
    · rw [split_eval, if_neg hempty]
      show (List.range rows.length).filterMap _ = _
      rw [filterMap_ite_pos, filter_contains_range _ _ hlt]
      rfl
    · rw [split_eval, if_neg hempty]
      show (List.range rows.length).filterMap _ = _
      rw [filterMap_ite_neg, filter_not_contains_range]
      rfl

/-- C8: `split_eval` partitions its input: on the empty list it returns two
empty lists; otherwise the eval component consists of the rows whose index
is among the first `desired` entries of the shuffled index permutation,
listed in increasing original-index order, the remaining component
consists of the rows at all other indices in original order, and the two
components together are a permutation of the input rows. -/
theorem split_eval_partition (shuffle : List ℕ → List ℕ) (rows : List α)
    (cfg : EvalSplitConfig)
    (hperm : (shuffle (List.range rows.length)).Perm (List.range rows.length)) :
    (rows = [] → split_eval shuffle rows cfg = ([], []))
    ∧ (split_eval shuffle rows cfg).1 =
        rowsAt rows ((((shuffle (List.range rows.length)).take
            (desiredEval rows.length cfg).toNat).toFinset).sort (· ≤ ·))
    ∧ (split_eval shuffle rows cfg).2 =
        rowsAt rows ((Finset.range rows.length \
            ((shuffle (List.range rows.length)).take
              (desiredEval rows.length cfg).toNat).toFinset).sort (· ≤ ·))
    ∧ ((split_eval shuffle rows cfg).1 ++ (split_eval shuffle rows cfg).2).Perm
        rows := by
  obtain ⟨h1, h2⟩ := split_eval_components shuffle rows cfg hperm
  refine ⟨?_, h1, h2, ?_⟩
  · rintro rfl
    rfl
  · by_cases hempty : rows.isEmpty
    · have hnil : rows = [] := List.isEmpty_iff.1 hempty
      subst hnil
      simp [split_eval]
    · rw [split_eval, if_neg hempty]
      show ((List.range rows.length).filterMap _ ++
        (List.range rows.length).filterMap _).Perm rows
      rw [filterMap_ite_pos, filterMap_ite_neg, ← List.filterMap_append]
      refine (List.Perm.filterMap _ (List.filter_append_perm _ _)).trans ?_
      rw [show (List.range rows.length).filterMap (fun i => rows[i]?) = rows from
        rowsAt_range rows]

/-- Witness for the partition property of `split_eval` at a concrete
two-row input with the identity shuffle. -/
theorem split_eval_partition_witness :
    (([7, 8] : List ℕ) = [] →
        split_eval id ([7, 8] : List ℕ) ⟨42, Rat.divInt 1 10, 25, none⟩ = ([], []))
    ∧ (split_eval id ([7, 8] : List ℕ) ⟨42, Rat.divInt 1 10, 25, none⟩).1 =
        rowsAt ([7, 8] : List ℕ) ((((id (List.range ([7, 8] : List ℕ).length)).take
            (desiredEval ([7, 8] : List ℕ).length
              ⟨42, Rat.divInt 1 10, 25, none⟩).toNat).toFinset).sort (· ≤ ·))
    ∧ (split_eval id ([7, 8] : List ℕ) ⟨42, Rat.divInt 1 10, 25, none⟩).2 =
        rowsAt ([7, 8] : List ℕ) ((Finset.range ([7, 8] : List ℕ).length \
            ((id (List.range ([7, 8] : List ℕ).length)).take
              (desiredEval ([7, 8] : List ℕ).length
                ⟨42, Rat.divInt 1 10, 25, none⟩).toNat).toFinset).sort (· ≤ ·))
    ∧ ((split_eval id ([7, 8] : List ℕ) ⟨42, Rat.divInt 1 10, 25, none⟩).1 ++
        (split_eval id ([7, 8] : List ℕ) ⟨42, Rat.divInt 1 10, 25, none⟩).2).Perm
        ([7, 8] : List ℕ) :=
  split_eval_partition id ([7, 8] : List ℕ) ⟨42, Rat.divInt 1 10, 25, none⟩
    (List.Perm.refl _)

/-- C7: for a non-empty row list the eval component of `split_eval` has
exactly the clamped size `desiredEval`: the rounded `n * eval_ratio`,
first raised to at least `min_eval_per_persona`, then lowered to at most
`n`, then (only when configured) lowered to at most `max_eval_per_persona`
— so a configured maximum below the minimum wins without error; in
particular with ratio 1/10, minimum 25 and no maximum, 40 rows give 25
eval rows and 300 rows give 30. -/
theorem split_eval_size (shuffle : List ℕ → List ℕ) (rows : List α)
    (cfg : EvalSplitConfig)
    (hperm : (shuffle (List.range rows.length)).Perm (List.range rows.length))
    (_hne : rows ≠ []) :
    ((split_eval shuffle rows cfg).1.length : ℤ) = desiredEval rows.length cfg
    ∧ (∀ mx, cfg.max_eval_per_persona = some mx →
        (split_eval shuffle rows cfg).1.length ≤ mx)
    ∧ (cfg.eval_ratioQ = Rat.divInt 1 10 → cfg.min_eval_per_persona = 25 →
        cfg.max_eval_per_persona = none → rows.length = 40 →
        (split_eval shuffle rows cfg).1.length = 25)
    ∧ (cfg.eval_ratioQ = Rat.divInt 1 10 → cfg.min_eval_per_persona = 25 →
        cfg.max_eval_per_persona = none → rows.length = 300 →
        (split_eval shuffle rows cfg).1.length = 30) := by
  have hnn : 0 ≤ desiredEval rows.length cfg := by
    rcases hmx : cfg.max_eval_per_persona with _ | mx
    · unfold desiredEval
      rw [hmx]
      exact le_min (le_trans (Int.natCast_nonneg _) (le_max_right _ _))
        (Int.natCast_nonneg _)
    · unfold desiredEval
      rw [hmx]
      exact le_min (le_min (le_trans (Int.natCast_nonneg _) (le_max_right _ _))
        (Int.natCast_nonneg _)) (Int.natCast_nonneg _)
  have hdle : desiredEval rows.length cfg ≤ (rows.length : ℤ) := by
    rcases hmx : cfg.max_eval_per_persona with _ | mx
    · unfold desiredEval
      rw [hmx]
      exact min_le_right _ _
    · unfold desiredEval
      rw [hmx]
      exact le_trans (min_le_left _ _) (min_le_right _ _)
  obtain ⟨h1, _⟩ := split_eval_components shuffle rows cfg hperm
  have hLlen : (shuffle (List.range rows.length)).length = rows.length := by
    have := hperm.length_eq
    simpa using this
  have hSnodup : ((shuffle (List.range rows.length)).take
      (desiredEval rows.length cfg).toNat).Nodup :=
    List.Nodup.sublist (List.take_sublist _ _)
      (hperm.nodup_iff.2 (List.nodup_range _))
  have hlt : ∀ i ∈ (shuffle (List.range rows.length)).take
      (desiredEval rows.length cfg).toNat, i < rows.length :=
    fun i hi => List.mem_range.1 (hperm.mem_iff.1 ((List.take_sublist _ _).subset hi))
  have hlen : (split_eval shuffle rows cfg).1.length =
      (desiredEval rows.length cfg).toNat := by
    rw [h1, rowsAt_length]
    · rw [Finset.length_sort, List.toFinset_card_of_nodup hSnodup,
        List.length_take, hLlen]
      exact min_eq_left (Int.toNat_le.2 hdle)
    · intro i hi
      rw [Finset.mem_sort, List.mem_toFinset] at hi
      exact hlt i hi
  have hlenZ : ((split_eval shuffle rows cfg).1.length : ℤ) =
      desiredEval rows.length cfg := by
    rw [hlen]
    exact Int.toNat_of_nonneg hnn
  refine ⟨hlenZ, ?_, ?_, ?_⟩
  · intro mx hmx
    have : desiredEval rows.length cfg ≤ (mx : ℤ) := by
      unfold desiredEval
      rw [hmx]
      exact min_le_right _ _
    rw [← hlenZ] at this
    exact_mod_cast this
  · intro hr hm hmx hn
    have hprod : ((rows.length : ℚ)) * cfg.eval_ratioQ = ((4 : ℤ) : ℚ) := by
      rw [hn, hr, Rat.divInt_eq_div]
      push_cast
      norm_num
    have : desiredEval rows.length cfg = 25 := by
      unfold desiredEval
      rw [hmx, hprod, pyRound_intCast, hm, hn]
      decide
    rw [this] at hlenZ
    exact_mod_cast hlenZ
  · intro hr hm hmx hn
    have hprod : ((rows.length : ℚ)) * cfg.eval_ratioQ = ((30 : ℤ) : ℚ) := by
      rw [hn, hr, Rat.divInt_eq_div]
      push_cast
      norm_num
    have : desiredEval rows.length cfg = 30 := by
      unfold desiredEval
      rw [hmx, hprod, pyRound_intCast, hm, hn]
      decide
    rw [this] at hlenZ
    exact_mod_cast hlenZ

/-- Witness for the eval-size theorem: 40 rows with ratio 1/10, minimum 25
and no maximum give exactly 25 eval rows. -/
theorem split_eval_size_witness :
    (split_eval id (List.range 40) ⟨42, Rat.divInt 1 10, 25, none⟩).1.length = 25 :=
  (split_eval_size id (List.range 40) ⟨42, Rat.divInt 1 10, 25, none⟩
    (List.Perm.refl _) (by decide)).2.2.1 rfl rfl rfl (by simp)

/-- C10: a persona with between 1 and `min_eval_per_persona` records and no
configured maximum sends ALL of its records to the eval subset and none to
the train subset. -/
theorem split_eval_small_persona (shuffle : List ℕ → List ℕ) (rows : List α)
    (cfg : EvalSplitConfig)
    (hperm : (shuffle (List.range rows.length)).Perm (List.range rows.length))
    (_hpos : 1 ≤ rows.length)
    (hmin : rows.length ≤ cfg.min_eval_per_persona)
    (hmax : cfg.max_eval_per_persona = none) :
    split_eval shuffle rows cfg = (rows, []) := by
  have hd : desiredEval rows.length cfg = (rows.length : ℤ) := by
    unfold desiredEval
    rw [hmax]
    exact min_eq_right (le_trans (by exact_mod_cast hmin) (le_max_right _ _))
  have hLlen : (shuffle (List.range rows.length)).length = rows.length := by
    have := hperm.length_eq
    simpa using this
  have htake : (shuffle (List.range rows.length)).take
      (desiredEval rows.length cfg).toNat = shuffle (List.range rows.length) := by
    rw [hd, Int.toNat_natCast]
    exact List.take_of_length_le (le_of_eq hLlen)
  obtain ⟨h1, h2⟩ := split_eval_components shuffle rows cfg hperm
  rw [htake] at h1 h2
  rw [List.toFinset_eq_of_perm _ _ hperm] at h1 h2
  rw [Prod.ext_iff]
  constructor
  · rw [h1, sort_toFinset_range, rowsAt_range]
  · rw [h2]
    have : (List.range rows.length).toFinset = Finset.range rows.length := by
      apply Finset.ext
      intro a
      rw [List.mem_toFinset, List.mem_range, Finset.mem_range]
    rw [this, Finset.sdiff_self, Finset.sort_empty]
    rfl

/-- Witness for the small-persona theorem: two rows with minimum 25 all go
to the eval subset (here with a non-identity reversing shuffle). -/
theorem split_eval_small_persona_witness :
    split_eval (fun l => l.reverse) ([10, 20] : List ℕ)
      ⟨42, Rat.divInt 1 10, 25, none⟩ = ([10, 20], []) :=
  split_eval_small_persona (fun l => l.reverse) ([10, 20] : List ℕ)
    ⟨42, Rat.divInt 1 10, 25, none⟩ (by decide) (by decide) (by decide) rfl

/-- Reduction modulo 2^32 for the 32-bit words of SHA-256. -/
def w32 (x : ℕ) : ℕ := x % 4294967296

/-- Right rotation of a 32-bit word by `n` bits. -/
def rotr32 (n x : ℕ) : ℕ := w32 ((x >>> n) ||| (x <<< (32 - n)))

/-- SHA-256 choice function (bitwise NOT within 32 bits is XOR with
4294967295). -/
def shaCh (x y z : ℕ) : ℕ := (x &&& y) ^^^ ((x ^^^ 4294967295) &&& z)

/-- SHA-256 majority function. -/
def shaMaj (x y z : ℕ) : ℕ := (x &&& y) ^^^ (x &&& z) ^^^ (y &&& z)

/-- SHA-256 big sigma 0. -/
def shaS0 (x : ℕ) : ℕ := rotr32 2 x ^^^ rotr32 13 x ^^^ rotr32 22 x

/-- SHA-256 big sigma 1. -/
def shaS1 (x : ℕ) : ℕ := rotr32 6 x ^^^ rotr32 11 x ^^^ rotr32 25 x

/-- SHA-256 small sigma 0. -/
def shas0 (x : ℕ) : ℕ := rotr32 7 x ^^^ rotr32 18 x ^^^ (x >>> 3)

/-- SHA-256 small sigma 1. -/
def shas1 (x : ℕ) : ℕ := rotr32 17 x ^^^ rotr32 19 x ^^^ (x >>> 10)

/-- The 64 SHA-256 round constants. -/
def shaK : List ℕ := [
  1116352408, 1899447441, 3049323471, 3921009573, 961987163, 1508970993,
  2453635748, 2870763221, 3624381080, 310598401, 607225278, 1426881987,
  1925078388, 2162078206, 2614888103, 3248222580, 3835390401, 4022224774,
  264347078, 604807628, 770255983, 1249150122, 1555081692, 1996064986,
  2554220882, 2821834349, 2952996808, 3210313671, 3336571891, 3584528711,
  113926993, 338241895, 666307205, 773529912, 1294757372, 1396182291,
  1695183700, 1986661051, 2177026350, 2456956037, 2730485921, 2820302411,
  3259730800, 3345764771, 3516065817, 3600352804, 4094571909, 275423344,
  430227734, 506948616, 659060556, 883997877, 958139571, 1322822218,
  1537002063, 1747873779, 1955562222, 2024104815, 2227730452, 2361852424,
  2428436474, 2756734187, 3204031479, 3329325298]

/-- The 8 SHA-256 initial hash words. -/
def shaH0 : List ℕ := [
  1779033703, 3144134277, 1013904242, 2773480762, 1359893119, 2600822924,
  528734635, 1541459225]

/-- The `k` big-endian bytes of `x`. -/
def natToBytesBE (k x : ℕ) : List ℕ :=
  (List.range k).map (fun i => (x >>> (8 * (k - 1 - i))) % 256)

/-- Group a byte list into big-endian 32-bit words (four bytes each). -/
def bytesToWordsBE : List ℕ → List ℕ
  | b0 :: b1 :: b2 :: b3 :: rest =>
      (((b0 * 256 + b1) * 256 + b2) * 256 + b3) :: bytesToWordsBE rest
  | _ => []

/-- SHA-256 padding for a message of `len` bytes: the byte 0x80, zeros to
reach 56 mod 64, and the bit length as 8 big-endian bytes. -/
def shaPadding (len : ℕ) : List ℕ :=
  [128] ++ List.replicate ((64 - (len + 9) % 64) % 64) 0 ++ natToBytesBE 8 (8 * len)

/-- Extend the 16 words of a block to the 64-word message schedule. -/
def shaSchedule (ws : List ℕ) : List ℕ :=
  (List.range 48).foldl
    (fun w _ =>
      w ++ [w32 (shas1 (w.getD (w.length - 2) 0) + w.getD (w.length - 7) 0 +
        shas0 (w.getD (w.length - 15) 0) + w.getD (w.length - 16) 0)])
    ws

/-- One SHA-256 compression round on the eight-word working state. -/
def shaRound (st : List ℕ) (kw : ℕ × ℕ) : List ℕ :=
  match st with
  | [a, b, c, d, e, f, g, h] =>
      [w32 (w32 (h + shaS1 e + shaCh e f g + kw.1 + kw.2) +
          w32 (shaS0 a + shaMaj a b c)),
        a, b, c,
        w32 (d + w32 (h + shaS1 e + shaCh e f g + kw.1 + kw.2)),
        e, f, g]
  | st => st

/-- Compress one 64-byte block into the running hash. -/
def shaCompress (hs : List ℕ) (block : List ℕ) : List ℕ :=
  (((shaK.zip (shaSchedule (bytesToWordsBE block))).foldl shaRound hs).zip hs).map
    (fun p => w32 (p.1 + p.2))

/-- Split a byte list into 64-byte blocks. -/
def chunks64 (l : List ℕ) : List (List ℕ) :=
  if h : l = [] then [] else l.take 64 :: chunks64 (l.drop 64)
termination_by l.length
decreasing_by
  simp only [List.length_drop]
  exact Nat.sub_lt (List.length_pos.2 h) (by norm_num)

/-- SHA-256 of a byte list, as a 32-byte list (the pure function computed
by `hashlib.sha256(...).digest()` in create_eval_datasets.py line 95). -/
def sha256 (msg : List ℕ) : List ℕ :=
  (((chunks64 (msg ++ shaPadding msg.length)).foldl shaCompress shaH0).map
    (natToBytesBE 4)).flatten

/-- A big-endian byte list read as an integer
(`int.from_bytes(digest, "big")`). -/
def bytesToNatBE (bs : List ℕ) : ℕ := bs.foldl (fun acc b => acc * 256 + b) 0

/-- The UTF-8 bytes of a string (`str.encode("utf-8")`). -/
def strBytes (s : String) : List ℕ := s.toUTF8.toList.map (fun b => b.toNat)

/-- The persona-local seed of create_eval_datasets.py lines 94-95: the
first 8 bytes of sha256 of the UTF-8 encoding of "{seed}:{persona}", read
as a big-endian integer. -/
def persona_seed (seed : ℕ) (persona : String) : ℕ :=
  bytesToNatBE ((sha256 (strBytes (toString seed ++ ":" ++ persona))).take 8)

/-- Applying a modelled shuffle to a row list: the shuffle permutes the
index list `range n` and the rows are read off in the shuffled order (this
models the in-place `rng.shuffle(xs)` on a list of rows). -/
def applyShuffle (f : List ℕ → List ℕ) (l : List α) : List α :=
  (f (List.range l.length)).filterMap (fun i => l[i]?)

/-- Deterministic model of the `random` generators used by
create_eval_datasets.py: `persona_shuffle s` models
`random.Random(s).shuffle` for the per-persona generator forked at line
96, and `global_shuffle1 s` / `global_shuffle2 s` model the first and
second `rng.shuffle` calls of the top-level generator `random.Random(seed)`
(lines 69, 125 and 130; the second call observes the state advanced by the
first, so it is modelled as a distinct function of the same seed). -/
structure ShuffleModel where
  persona_shuffle : ℕ → List ℕ → List ℕ
  global_shuffle1 : ℕ → List ℕ → List ℕ
  global_shuffle2 : ℕ → List ℕ → List ℕ

/-- Embedding of `build_eval_datasets` (create_eval_datasets.py lines
68-149), restricted to the data it computes (directory creation and file
writing are I/O): for each persona file, in input order, fork a
persona-local generator seeded with `persona_seed` and split that
persona's rows with it; return the per-persona eval/train pairs together
with the two combined pools, the eval pool shuffled by the top-level
generator's first shuffle call and the train pool by its second. -/
def build_eval_datasets (M : ShuffleModel) (cfg : EvalSplitConfig)
    (personaFiles : List (String × List α)) :
    List (String × (List α × List α)) × (List α × List α) :=
  (personaFiles.map (fun pf =>
      (pf.1, split_eval (M.persona_shuffle (persona_seed cfg.seed pf.1)) pf.2 cfg)),
   (applyShuffle (M.global_shuffle1 cfg.seed)
      ((personaFiles.map (fun pf =>
        (split_eval (M.persona_shuffle (persona_seed cfg.seed pf.1)) pf.2 cfg).1)).flatten),
    applyShuffle (M.global_shuffle2 cfg.seed)
      ((personaFiles.map (fun pf =>
        (split_eval (M.persona_shuffle (persona_seed cfg.seed pf.1)) pf.2 cfg).2)).flatten)))

lemma lookup_map_keyed (g : String × List α → β) :
    ∀ (files : List (String × List α)) (p : String) (rows : List α),
      (p, rows) ∈ files → (files.map Prod.fst).Nodup →
      (files.map (fun pf => (pf.1, g pf))).lookup p = some (g (p, rows)) := by
  intro files
  induction files with
  | nil =>
      intro p rows hmem _
      exact absurd hmem (List.not_mem_nil _)
  | cons qr t ih =>
      intro p rows hmem hnd
      rcases List.mem_cons.1 hmem with heq | hmem'
      · rw [← heq]
        simp [List.lookup]
      · have hpq : p ≠ qr.1 := by
          intro hc
          have : qr.1 ∈ t.map Prod.fst := by
            rw [← hc]
            exact List.mem_map.2 ⟨(p, rows), hmem', rfl⟩
          rw [List.map_cons, List.nodup_cons] at hnd
          exact hnd.1 this
        rw [List.map_cons, List.lookup, beq_eq_false_iff_ne.2 hpq]
        exact ih p rows hmem' (by
          rw [List.map_cons, List.nodup_cons] at hnd
          exact hnd.2)

/-- C9: the Dataset Splitter is deterministic and persona-local: the
persona-local seed is the first 8 bytes of sha256 of "{seed}:{persona}"
read as a big-endian integer; inside `build_eval_datasets` each persona's
recorded eval/train pair equals `split_eval` of that persona's own rows
driven by the persona-seeded generator alone; and two runs over different
persona collections that agree on one persona's rows assign that persona
identical eval/train partitions — the split depends only on the seed, the
persona name and its own rows, never on which other personas are
processed (all randomness is a deterministic function of the seeds, so
identical inputs give identical outputs). -/
theorem build_eval_datasets_deterministic (M : ShuffleModel)
    (cfg : EvalSplitConfig) (files1 files2 : List (String × List α))
    (p : String) (rows : List α)
    (h1 : (p, rows) ∈ files1) (hn1 : (files1.map Prod.fst).Nodup)
    (h2 : (p, rows) ∈ files2) (hn2 : (files2.map Prod.fst).Nodup) :
    persona_seed cfg.seed p =
      bytesToNatBE ((sha256 (strBytes (toString cfg.seed ++ ":" ++ p))).take 8)
    ∧ (build_eval_datasets M cfg files1).1.lookup p =
        some (split_eval (M.persona_shuffle (persona_seed cfg.seed p)) rows cfg)
    ∧ (build_eval_datasets M cfg files1).1.lookup p =
        (build_eval_datasets M cfg files2).1.lookup p := by
  have e1 : (build_eval_datasets M cfg files1).1.lookup p =
      some (split_eval (M.persona_shuffle (persona_seed cfg.seed p)) rows cfg) := by
    show (files1.map (fun pf => (pf.1,
        split_eval (M.persona_shuffle (persona_seed cfg.seed pf.1)) pf.2 cfg))).lookup p = _
    exact lookup_map_keyed
      (fun pf => split_eval (M.persona_shuffle (persona_seed cfg.seed pf.1)) pf.2 cfg)
      files1 p rows h1 hn1
  have e2 : (build_eval_datasets M cfg files2).1.lookup p =
      some (split_eval (M.persona_shuffle (persona_seed cfg.seed p)) rows cfg) := by
    show (files2.map (fun pf => (pf.1,
        split_eval (M.persona_shuffle (persona_seed cfg.seed pf.1)) pf.2 cfg))).lookup p = _
    exact lookup_map_keyed
      (fun pf => split_eval (M.persona_shuffle (persona_seed cfg.seed pf.1)) pf.2 cfg)
      files2 p rows h2 hn2
  exact ⟨rfl, e1, e1.trans e2.symm⟩

/-- Witness for persona-local determinism: persona "a" receives the same
split whether it is processed alongside persona "b" or alone. -/
theorem build_eval_datasets_deterministic_witness :
    persona_seed 42 "a" =
      bytesToNatBE ((sha256 (strBytes (toString 42 ++ ":" ++ "a"))).take 8)
    ∧ (build_eval_datasets ⟨fun _ l => l, fun _ l => l, fun _ l => l⟩
        ⟨42, Rat.divInt 1 10, 25, none⟩
        [("a", [0]), ("b", [1])]).1.lookup "a" =
        some (split_eval ((⟨fun _ l => l, fun _ l => l, fun _ l => l⟩ :
            ShuffleModel).persona_shuffle (persona_seed 42 "a")) [0]
          ⟨42, Rat.divInt 1 10, 25, none⟩)
    ∧ (build_eval_datasets ⟨fun _ l => l, fun _ l => l, fun _ l => l⟩
        ⟨42, Rat.divInt 1 10, 25, none⟩
        [("a", [0]), ("b", [1])]).1.lookup "a" =
        (build_eval_datasets ⟨fun _ l => l, fun _ l => l, fun _ l => l⟩
          ⟨42, Rat.divInt 1 10, 25, none⟩
          [("a", ([0] : List ℕ))]).1.lookup "a" :=
  build_eval_datasets_deterministic ⟨fun _ l => l, fun _ l => l, fun _ l => l⟩
    ⟨42, Rat.divInt 1 10, 25, none⟩ [("a", [0]), ("b", [1])] [("a", [0])]
    "a" ([0] : List ℕ) (by simp) (by simp) (by simp) (by simp)

end Nanomechat
